import Mathlib

/-!
Shallow embedding of `src/routerlicious/src/alfred/storage.ts` (the fork
coordinator of a collaborative-document service): document metadata records,
version-store refs and blobs, fork creation, and the integration announcement.

External I/O (the git-backed version store, the mongo document collection, the
message producer) is modelled as explicit state threaded through the functions.
Asynchronous effects that the source issues concurrently and joins with
`Promise.all` are applied to the state in issue order; a rejection after the
join point leaves the already-issued effects visible, exactly as in the source.
JSON decoding of the `.attributes` blob is modelled post-decode: a blob's
content is `some attrs` when `Buffer.from(..).toString` + `JSON.parse` would
yield attributes, and `none` when the bytes are malformed.
-/

/-- Source constant `StartingSequenceNumber = 0` (storage.ts line 8). -/
def StartingSequenceNumber : Int := 0

/-- Interface `api.IDocumentAttributes`: the sequencing fields of the `.attributes`
blob that `createFork` reads (storage.ts lines 141-143). -/
structure IDocumentAttributes where
  sequenceNumber : Int
  minimumSequenceNumber : Int
  deriving DecidableEq, Repr

/-- An entry of a parent document's `forks` array, as appended by
`createFork` (storage.ts line 175): `{ documentId: name, tenantId }`. -/
structure IForkRef where
  documentId : String
  tenantId : String
  deriving DecidableEq, Repr

/-- The `parent` field of a fork's document record
(storage.ts lines 159-164). -/
structure IParentRef where
  documentId : String
  minimumSequenceNumber : Int
  sequenceNumber : Int
  tenantId : String
  deriving DecidableEq, Repr

/-- A document metadata record, with exactly the fields the source's object
literals set (storage.ts lines 151-167 and 204-214). Fields the source leaves
`undefined` are `Option` set to `none`; in particular neither literal sets a
top-level `minimumSequenceNumber`, so that field is `none` for records this
module creates (reading it in JS yields `undefined`). -/
structure IDocument where
  branchMap : Option Unit
  clients : Option Unit
  createTime : Int
  documentId : String
  forks : List IForkRef
  logOffset : Option Int
  minimumSequenceNumber : Option Int
  parent : Option IParentRef
  sequenceNumber : Int
  tenantId : String
  deriving DecidableEq, Repr

/-- Interface `core.IForkOperation` (storage.ts lines 230-235): the `contents` of the
integration message. -/
structure IForkOperation where
  documentId : String
  minSequenceNumber : Int
  sequenceNumber : Int
  tenantId : String
  deriving DecidableEq, Repr

/-- The `operation` field of the integration message
(storage.ts lines 240-246). -/
structure IForkOperationEnvelope where
  clientSequenceNumber : Int
  contents : IForkOperation
  referenceSequenceNumber : Int
  traces : List Unit
  type : String
  deriving DecidableEq, Repr

/-- Interface `core.IRawOperationMessage` (storage.ts lines 237-251). -/
structure IRawOperationMessage where
  clientId : Option String
  documentId : String
  operation : IForkOperationEnvelope
  tenantId : String
  timestamp : Int
  type : String
  user : Option Unit
  deriving DecidableEq, Repr

/-- Modelled from the spec: the constant `api.Fork` from the missing
`api-core` module; the wire shape gives `operation.type = "Fork"`. -/
def apiFork : String := "Fork"

/-- Modelled from the spec: the constant `core.RawOperationType` from the
missing `core` module; the wire shape gives `type = "RawOperation"`. -/
def RawOperationType : String := "RawOperation"

/-- A blob of the version store, keyed by commit sha and path, with its
content modelled post-JSON-decode (`none` = malformed bytes). -/
structure BlobEntry where
  sha : String
  path : String
  content : Option IDocumentAttributes
  deriving DecidableEq, Repr

/-- The tenant's git-backed version store: named refs (name, target sha) and
blobs. Modelled from the spec: `getHeadRef`, `getBlobContent`,
`createOrUpdateRef` of the VersionStore contract consumed by storage.ts. -/
structure GitState where
  refs : List (String × String)
  blobs : List BlobEntry
  deriving DecidableEq, Repr

/-- One VersionStore call issued by `createFork`, recorded for instrumented
runs (which call resolved the head, which sha each later call used). -/
inductive GitOp where
  | getRef (id : String) (result : Option String)
  | getContent (sha : String) (path : String)
  | upsertRef (name : String) (sha : String)
  deriving DecidableEq, Repr

/-- Errors a storage operation can surface: a rejected blob read, a
`JSON.parse` throw on malformed attributes, a duplicate-key rejection of
`insertOne`, and the `TypeError` of reading a property of `null`. -/
inductive Err where
  | blobNotFound
  | jsonParseError
  | duplicateKey
  | nullDeref
  deriving DecidableEq, Repr

/-- The full external state threaded through the embedded functions: version
store, mongo documents collection, messages handed to `producer.send`
(recorded as (partition key, message)), and the VersionStore call log. -/
structure SystemState where
  git : GitState
  mongo : List IDocument
  sent : List (String × IRawOperationMessage)
  gitLog : List GitOp
  deriving DecidableEq, Repr

/-- Per-run environment: the name `moniker.choose()` returns and the value
`Date.now()` returns. -/
structure Env where
  chosenName : String
  now : Int
  deriving DecidableEq, Repr

/-- Resolve a named ref to its target sha (pure lookup into the state). -/
def refLookup (g : GitState) (name : String) : Option String :=
  (g.refs.find? (fun r => r.1 = name)).map (fun r => r.2)

/-- Look up a blob by (sha, path); `none` = the store has no such blob (the
read rejects), `some none` = present but malformed, `some (some a)` =
decodes to attributes `a`. -/
def blobLookup (g : GitState) (sha path : String) : Option (Option IDocumentAttributes) :=
  (g.blobs.find? (fun b => b.sha = sha && b.path = path)).map (fun b => b.content)

/-- Call `gitManager.getRef(id)` (storage.ts line 125), logged. -/
def gitGetRef (st : SystemState) (id : String) : Option String × SystemState :=
  let r := refLookup st.git id
  (r, { st with gitLog := st.gitLog ++ [GitOp.getRef id r] })

/-- Call `gitManager.getContent(sha, path)` (storage.ts line 136), logged. -/
def gitGetContent (st : SystemState) (sha path : String) :
    Option (Option IDocumentAttributes) × SystemState :=
  (blobLookup st.git sha path, { st with gitLog := st.gitLog ++ [GitOp.getContent sha path] })

/-- Call `gitManager.upsertRef(name, sha)` (storage.ts line 137), logged.
Modelled from the spec: `createOrUpdateRef(name, targetSha)` sets the named
ref to the target, creating it when absent. -/
def gitUpsertRef (st : SystemState) (name sha : String) : SystemState :=
  { st with
      git := { st.git with
                 refs := (name, sha) :: st.git.refs.filter (fun r => r.1 ≠ name) }
      gitLog := st.gitLog ++ [GitOp.upsertRef name sha] }

/-- Call `collection.findOne({ documentId, tenantId })`. Modelled from the spec:
`findOne(tenantId, documentId) → record|null` of the store contract. -/
def findOne (docs : List IDocument) (tenantId documentId : String) : Option IDocument :=
  docs.find? (fun d => d.documentId = documentId && d.tenantId = tenantId)

/-- Call `collection.insertOne(record)`. Modelled from the spec:
`insertOne(record) → ok|duplicate-key-error`, uniqueness enforced on the
(documentId, tenantId) key; `none` is the duplicate-key rejection. -/
def insertOne (docs : List IDocument) (d : IDocument) : Option (List IDocument) :=
  if (findOne docs d.tenantId d.documentId).isSome then none
  else some (docs ++ [d])

/-- Call `collection.update({documentId, tenantId}, null, {forks: entry})`
(storage.ts lines 168-176). Modelled from the spec: `update(key, fieldSets,
fieldAppends) → ok`, a genuine append to the `forks` field of the matching
record; with no matching record the update matches nothing and is a no-op. -/
def updateAppendFork (docs : List IDocument) (tenantId documentId : String)
    (entry : IForkRef) : List IDocument :=
  docs.map (fun d =>
    if d.documentId = documentId && d.tenantId = tenantId then
      { d with forks := d.forks ++ [entry] }
    else d)

/-- Function `getDocument` (storage.ts lines 13-22): pure lookup. -/
def getDocument (tenantId documentId : String) (st : SystemState) : Option IDocument :=
  findOne st.mongo tenantId documentId

/-- Function `getOrCreateObject` (storage.ts lines 191-217): `findOrCreate` of the
(documentId, tenantId) key against the default record the source builds.
Modelled from the spec for the store primitive: `findOrCreate(key, default)`
atomically returns the existing record or inserts the default. -/
def getOrCreateObject (env : Env) (tenantId documentId : String) (st : SystemState) :
    (Bool × IDocument) × SystemState :=
  match findOne st.mongo tenantId documentId with
  | some doc => ((true, doc), st)
  | none =>
    let doc : IDocument :=
      { branchMap := none
        clients := none
        createTime := env.now
        documentId := documentId
        forks := []
        logOffset := none
        minimumSequenceNumber := none
        parent := none
        sequenceNumber := StartingSequenceNumber
        tenantId := tenantId }
    ((false, doc), { st with mongo := st.mongo ++ [doc] })

/-- Function `getOrCreateDocument` (storage.ts lines 24-37): delegates to
`getOrCreateObject`. The pair is `(existing, value)`. -/
def getOrCreateDocument (env : Env) (tenantId documentId : String) (st : SystemState) :
    (Bool × IDocument) × SystemState :=
  getOrCreateObject env tenantId documentId st

/-- Function `getForks` (storage.ts lines 99-110): `findOne` then `document.forks || []`.
When `findOne` yields `null`, the property access `document.forks` throws a
`TypeError` before the `|| []` default can apply; in the model records always
carry a `forks` array, so `|| []` is the identity on found records. -/
def getForks (tenantId documentId : String) (st : SystemState) :
    Except Err (List IForkRef) :=
  match findOne st.mongo tenantId documentId with
  | none => Except.error Err.nullDeref
  | some document => Except.ok document.forks

/-- The `integrateMessage` literal of `sendIntegrateStream`
(storage.ts lines 230-251), with `contents` inlined. -/
def integrateMessage (tenantId id : String)
    (sequenceNumber minSequenceNumber : Int) (name : String)
    (env : Env) : IRawOperationMessage :=
  { clientId := none
    documentId := id
    operation :=
      { clientSequenceNumber := -1
        contents :=
          { documentId := name
            minSequenceNumber := minSequenceNumber
            sequenceNumber := sequenceNumber
            tenantId := tenantId }
        referenceSequenceNumber := -1
        traces := []
        type := apiFork }
    tenantId := tenantId
    timestamp := env.now
    type := RawOperationType
    user := none }

/-- Function `sendIntegrateStream` (storage.ts lines 222-253): builds the integration
message and hands it to `producer.send(JSON.stringify(msg), id)`; recorded as
the pair (partition key `id`, message value). -/
def sendIntegrateStream (tenantId id : String)
    (sequenceNumber minSequenceNumber : Int) (name : String)
    (env : Env) (st : SystemState) : SystemState :=
  { st with sent := st.sent ++
      [(id, integrateMessage tenantId id sequenceNumber minSequenceNumber name env)] }

/-- The tail of `createFork` after the sequencing state is derived
(storage.ts lines 146-188): build the fork record, issue `insertOne` and the
parent `forks` append (joined by `Promise.all`; the append is awaited at its
definition, so its effect lands even when the insert rejects), then announce
and return the generated name. -/
def createForkFinish (env : Env) (tenantId id name : String)
    (sequenceNumber minimumSequenceNumber : Int) (st : SystemState) :
    Except Err String × SystemState :=
  let forkDoc : IDocument :=
    { branchMap := none
      clients := none
      createTime := env.now
      documentId := name
      forks := []
      logOffset := none
      minimumSequenceNumber := none
      parent := some
        { documentId := id
          minimumSequenceNumber := minimumSequenceNumber
          sequenceNumber := sequenceNumber
          tenantId := tenantId }
      sequenceNumber := sequenceNumber
      tenantId := tenantId }
  let insertRes := insertOne st.mongo forkDoc
  let afterInsert := insertRes.getD st.mongo
  let afterUpdate := updateAppendFork afterInsert tenantId id
    { documentId := name, tenantId := tenantId }
  let st1 := { st with mongo := afterUpdate }
  match insertRes with
  | none => (Except.error Err.duplicateKey, st1)
  | some _ =>
    let st2 := sendIntegrateStream tenantId id sequenceNumber minimumSequenceNumber name env st1
    (Except.ok name, st2)

/-- Function `createFork` (storage.ts lines 112-189): generate a name, resolve the
parent's head ref once, derive the sequencing state (defaults when no head;
otherwise read `.attributes` at the head sha while concurrently upserting the
fork's ref at that same sha — both effects are issued before the join, so the
ref write lands even when the read or the parse fails), then finish. -/
def createFork (env : Env) (tenantId id : String) (st : SystemState) :
    Except Err String × SystemState :=
  let name := env.chosenName
  let (head, st1) := gitGetRef st id
  match head with
  | none =>
    createForkFinish env tenantId id name StartingSequenceNumber StartingSequenceNumber st1
  | some sha =>
    let (attributesContent, st2) := gitGetContent st1 sha ".attributes"
    let st3 := gitUpsertRef st2 name sha
    match attributesContent with
    | none => (Except.error Err.blobNotFound, st3)
    | some none => (Except.error Err.jsonParseError, st3)
    | some (some attributes) =>
      createForkFinish env tenantId id name
        attributes.sequenceNumber attributes.minimumSequenceNumber st3

/-- The sequencing state `createFork` derives from the parent's head
(storage.ts lines 128-144), as a pure function of the version-store state:
`some (sequenceNumber, minimumSequenceNumber)` when derivation succeeds,
`none` when the attributes blob is missing or malformed. -/
def derivedSeqState (g : GitState) (id : String) : Option (Int × Int) :=
  match refLookup g id with
  | none => some (StartingSequenceNumber, StartingSequenceNumber)
  | some sha =>
    match blobLookup g sha ".attributes" with
    | some (some a) => some (a.sequenceNumber, a.minimumSequenceNumber)
    | _ => none

/-! ### Concrete fixtures used by witnesses and counterexamples -/

/-- Attributes blob content of the worked scenario: `{sequenceNumber: 42,
minimumSequenceNumber: 10}`. -/
def attrs42 : IDocumentAttributes := { sequenceNumber := 42, minimumSequenceNumber := 10 }

/-- A root document record for ("doc1", "t1") with no forks yet. -/
def parentDoc : IDocument :=
  { branchMap := none, clients := none, createTime := 0, documentId := "doc1", forks := [],
    logOffset := none, minimumSequenceNumber := none, parent := none,
    sequenceNumber := 0, tenantId := "t1" }

/-- State where "doc1" has a head ref at "sha1" whose attributes decode to
`attrs42`, and a metadata record exists. -/
def stHead : SystemState :=
  { git := { refs := [("doc1", "sha1")],
             blobs := [{ sha := "sha1", path := ".attributes", content := some attrs42 }] }
    mongo := [parentDoc], sent := [], gitLog := [] }

/-- State where "doc1" has a head ref at "sha1" but the attributes blob there
is malformed (JSON.parse throws). -/
def stMalformed : SystemState :=
  { git := { refs := [("doc1", "sha1")],
             blobs := [{ sha := "sha1", path := ".attributes", content := none }] }
    mongo := [parentDoc], sent := [], gitLog := [] }

/-- State with no refs, no blobs, and no metadata records. -/
def emptyState : SystemState :=
  { git := { refs := [], blobs := [] }, mongo := [], sent := [], gitLog := [] }

/-- A run environment: `moniker.choose()` returns "fork1", `Date.now()` 100. -/
def env1 : Env := { chosenName := "fork1", now := 100 }

/-- State where "doc1" has a head ref at "sha1" but no blob exists there at
all (the `.attributes` read rejects). -/
def stNoBlob : SystemState :=
  { git := { refs := [("doc1", "sha1")], blobs := [] }
    mongo := [parentDoc], sent := [], gitLog := [] }

/-- Whether a logged VersionStore call is a ref resolution. -/
def isGetRefOp : GitOp → Bool
  | GitOp.getRef _ _ => true
  | _ => false

/-! ### Helper lemmas about the store primitives -/

theorem findOne_eq_some_key {docs : List IDocument} {t i : String} {d : IDocument}
    (h : findOne docs t i = some d) : d.documentId = i ∧ d.tenantId = t := by
  have hp := List.find?_some h
  simpa using hp

theorem find?_map_key {α : Type} (f : α → α) (p : α → Bool) (hf : ∀ a, p (f a) = p a)
    (l : List α) : (l.map f).find? p = (l.find? p).map f := by
  induction l with
  | nil => rfl
  | cons a l ih =>
    by_cases hpa : p a = true
    · rw [List.map_cons, List.find?_cons_of_pos _ (by rw [hf]; exact hpa),
        List.find?_cons_of_pos _ hpa]
      rfl
    · rw [List.map_cons, List.find?_cons_of_neg _ (by rw [hf]; simpa using hpa),
        List.find?_cons_of_neg _ hpa, ih]

theorem findOne_updateAppendFork (docs : List IDocument) (t i : String) (entry : IForkRef)
    (t2 i2 : String) :
    findOne (updateAppendFork docs t i entry) t2 i2 =
      (findOne docs t2 i2).map (fun d =>
        if d.documentId = i && d.tenantId = t then { d with forks := d.forks ++ [entry] }
        else d) := by
  unfold findOne updateAppendFork
  apply find?_map_key
  intro d
  by_cases hc : (d.documentId = i && d.tenantId = t) = true
  · rw [if_pos hc]
  · rw [if_neg hc]

theorem findOne_append (docs : List IDocument) (d : IDocument) (t i : String) :
    findOne (docs ++ [d]) t i = (findOne docs t i).or (findOne [d] t i) := by
  unfold findOne
  exact List.find?_append


/-- C1: for a parent whose head ref resolves to `sha` and whose `.attributes`
blob at that commit decodes to attributes `a`, a successful `createFork`
returns the generated name, inserts a fork record whose `parent` field is
exactly `{documentId: id, tenantId, sequenceNumber: a.sequenceNumber,
minimumSequenceNumber: a.minimumSequenceNumber}` (the decoded values
verbatim), and creates a ref named after the fork id pointing at `sha`. -/
theorem claim_C1 (env : Env) (st : SystemState) (tenantId id sha : String)
    (a : IDocumentAttributes) (n : String) (st' : SystemState)
    (href : refLookup st.git id = some sha)
    (hblob : blobLookup st.git sha ".attributes" = some (some a))
    (hrun : createFork env tenantId id st = (Except.ok n, st')) :
    n = env.chosenName ∧
    (∃ d, findOne st'.mongo tenantId n = some d ∧
      d.parent = some { documentId := id, minimumSequenceNumber := a.minimumSequenceNumber,
                        sequenceNumber := a.sequenceNumber, tenantId := tenantId }) ∧
    refLookup st'.git n = some sha := by
  unfold createFork at hrun
  simp only [gitGetRef, gitGetContent, href, hblob] at hrun
  unfold createForkFinish at hrun
  set forkDoc : IDocument :=
    { branchMap := none, clients := none, createTime := env.now,
      documentId := env.chosenName, forks := [], logOffset := none,
      minimumSequenceNumber := none,
      parent := some { documentId := id, minimumSequenceNumber := a.minimumSequenceNumber,
                       sequenceNumber := a.sequenceNumber, tenantId := tenantId },
      sequenceNumber := a.sequenceNumber, tenantId := tenantId } with hforkDoc
  rcases hins : insertOne (gitUpsertRef
      { st with gitLog := st.gitLog ++ [GitOp.getRef id (some sha)]
                  ++ [GitOp.getContent sha ".attributes"] } env.chosenName sha).mongo forkDoc
    with _ | docs1
  all_goals rw [hforkDoc] at hins
  · simp only [gitUpsertRef] at hrun hins
    rw [hins] at hrun
    simp at hrun
  · simp only [gitUpsertRef] at hrun hins
    rw [hins] at hrun
    simp only [Option.getD_some, Prod.mk.injEq, Except.ok.injEq] at hrun
    obtain ⟨hn, hst⟩ := hrun
    subst hn
    subst hst
    refine ⟨rfl, ⟨?_, ?_⟩⟩
    · -- the fork record is found at key (chosenName, tenantId) with the exact parent
      unfold insertOne at hins
      split at hins
      · exact absurd hins (by simp)
      · rename_i hfresh
        simp only [Option.some.injEq] at hins
        subst hins
        refine ⟨if forkDoc.documentId = id && forkDoc.tenantId = tenantId
            then { forkDoc with forks := forkDoc.forks ++ [{ documentId := env.chosenName, tenantId := tenantId }] }
            else forkDoc, ?_, ?_⟩
        · rw [sendIntegrateStream]
          simp only
          rw [findOne_updateAppendFork, findOne_append]
          simp only [gitUpsertRef] at hfresh ⊢
          have hnone : findOne st.mongo tenantId env.chosenName = none := by
            rcases hfo : findOne st.mongo tenantId env.chosenName with _ | d0
            · rfl
            · exact absurd (by simp [hfo]) hfresh
          rw [hnone]
          simp [findOne, hforkDoc]
        · by_cases hc : (forkDoc.documentId = id && forkDoc.tenantId = tenantId) = true
          · rw [if_pos hc, hforkDoc]
          · rw [if_neg hc, hforkDoc]
    · -- the new ref points at the parent's head sha
      rw [sendIntegrateStream]
      simp only [gitUpsertRef, refLookup]
      rw [List.find?_cons_of_pos _ (by simp)]
      rfl

/-- C1 witness: the worked scenario — parent "doc1" at head "sha1" with
attributes {42, 10}; the fork record's parent snapshot is exactly
{doc1, 10, 42, t1} and the ref "fork1" points at "sha1". -/
theorem claim_C1_witness :
    (∃ d, findOne (createFork env1 "t1" "doc1" stHead).2.mongo "t1" "fork1" = some d ∧
      d.parent = some { documentId := "doc1", minimumSequenceNumber := 10,
                        sequenceNumber := 42, tenantId := "t1" }) ∧
    refLookup (createFork env1 "t1" "doc1" stHead).2.git "fork1" = some "sha1" := by
  have h := claim_C1 env1 stHead "t1" "doc1" "sha1" attrs42
    "fork1" (createFork env1 "t1" "doc1" stHead).2
    (by decide) (by decide) (by rfl)
  exact ⟨h.2.1, h.2.2⟩


/-- C2 counterexample: with a malformed `.attributes` blob at the head,
`createFork` does fail with the parse error, but a new ref named after the
generated fork id IS observable afterwards (the ref upsert was issued
concurrently with the blob read and joined before the parse), contradicting
"on that failure no new ref ... [is] observable". -/
theorem claim_C2_counterexample :
    (createFork env1 "t1" "doc1" stMalformed).1 = Except.error Err.jsonParseError ∧
    refLookup stMalformed.git "fork1" = none ∧
    refLookup (createFork env1 "t1" "doc1" stMalformed).2.git "fork1" = some "sha1" := by
  exact ⟨by rfl, by rfl, by rfl⟩

/-- C2 amended: when the head ref exists but the `.attributes` blob there is
malformed (or missing), `createFork` fails with the corresponding
corrupt-history (resp. missing-blob) error and does not fall back to default
sequencing — no metadata record is written and no announcement is sent — but
the ref named after the generated fork id has already been created, pointing
at the parent's head commit. -/
theorem claim_C2_amended_holds (env : Env) (st : SystemState) (tenantId id sha : String)
    (href : refLookup st.git id = some sha) :
    (blobLookup st.git sha ".attributes" = some none →
      (createFork env tenantId id st).1 = Except.error Err.jsonParseError ∧
      (createFork env tenantId id st).2.mongo = st.mongo ∧
      (createFork env tenantId id st).2.sent = st.sent ∧
      refLookup (createFork env tenantId id st).2.git env.chosenName = some sha) ∧
    (blobLookup st.git sha ".attributes" = none →
      (createFork env tenantId id st).1 = Except.error Err.blobNotFound ∧
      (createFork env tenantId id st).2.mongo = st.mongo ∧
      (createFork env tenantId id st).2.sent = st.sent ∧
      refLookup (createFork env tenantId id st).2.git env.chosenName = some sha) := by
  constructor
  · intro hb
    unfold createFork
    simp only [gitGetRef, gitGetContent, gitUpsertRef, href, hb]
    simp [refLookup]
  · intro hb
    unfold createFork
    simp only [gitGetRef, gitGetContent, gitUpsertRef, href, hb]
    simp [refLookup]

/-- C2 witness: the amended behavior at the malformed-blob state and at the
missing-blob state. -/
theorem claim_C2_amended_witness :
    ((createFork env1 "t1" "doc1" stMalformed).1 = Except.error Err.jsonParseError ∧
      (createFork env1 "t1" "doc1" stMalformed).2.mongo = stMalformed.mongo ∧
      (createFork env1 "t1" "doc1" stMalformed).2.sent = stMalformed.sent ∧
      refLookup (createFork env1 "t1" "doc1" stMalformed).2.git "fork1" = some "sha1") ∧
    ((createFork env1 "t1" "doc1" stNoBlob).1 = Except.error Err.blobNotFound ∧
      (createFork env1 "t1" "doc1" stNoBlob).2.mongo = stNoBlob.mongo ∧
      (createFork env1 "t1" "doc1" stNoBlob).2.sent = stNoBlob.sent ∧
      refLookup (createFork env1 "t1" "doc1" stNoBlob).2.git "fork1" = some "sha1") := by
  exact ⟨(claim_C2_amended_holds env1 stMalformed "t1" "doc1" "sha1" (by decide)).1 (by decide),
    (claim_C2_amended_holds env1 stNoBlob "t1" "doc1" "sha1" (by decide)).2 (by decide)⟩

/-- C3 counterexample: on a fresh key the record `getOrCreateDocument`
creates has `existing = false` and `sequenceNumber = 0`, but its
`minimumSequenceNumber` is not 0 — the source's default record never sets
that field (it is undefined), contradicting
"creates a record with sequenceNumber = minimumSequenceNumber = 0". -/
theorem claim_C3_counterexample :
    (getOrCreateDocument env1 "t1" "doc1" emptyState).1.1 = false ∧
    (getOrCreateDocument env1 "t1" "doc1" emptyState).1.2.sequenceNumber = 0 ∧
    (getOrCreateDocument env1 "t1" "doc1" emptyState).1.2.minimumSequenceNumber ≠ some 0 := by
  exact ⟨by rfl, by rfl, by decide⟩

/-- C3 amended: on a key with no existing record, `getOrCreateDocument`
creates a record with `sequenceNumber = 0`, empty `forks`, `parent = null`
and the `minimumSequenceNumber` field left unset (undefined, not 0),
returning `existing = false`; a second call with the same key returns
`existing = true` and the identical record, without touching the store, and
exactly one record with that key exists (idempotent creation). -/
theorem claim_C3_amended_holds (env env2 : Env) (st : SystemState) (t i : String)
    (habs : findOne st.mongo t i = none) :
    (getOrCreateDocument env t i st).1.1 = false ∧
    (getOrCreateDocument env t i st).1.2.sequenceNumber = StartingSequenceNumber ∧
    (getOrCreateDocument env t i st).1.2.minimumSequenceNumber = none ∧
    (getOrCreateDocument env t i st).1.2.forks = [] ∧
    (getOrCreateDocument env t i st).1.2.parent = none ∧
    (getOrCreateDocument env2 t i (getOrCreateDocument env t i st).2).1.1 = true ∧
    (getOrCreateDocument env2 t i (getOrCreateDocument env t i st).2).1.2 =
      (getOrCreateDocument env t i st).1.2 ∧
    (getOrCreateDocument env2 t i (getOrCreateDocument env t i st).2).2 =
      (getOrCreateDocument env t i st).2 ∧
    (getOrCreateDocument env t i st).2.mongo.countP
      (fun d => d.documentId = i && d.tenantId = t) = 1 := by
  have hzero : st.mongo.countP (fun d => d.documentId = i && d.tenantId = t) = 0 := by
    rw [List.countP_eq_zero]
    intro d hd
    exact List.find?_eq_none.mp habs d hd
  unfold getOrCreateDocument getOrCreateObject
  rw [habs]
  simp only
  have hfound : findOne (st.mongo ++
      [{ branchMap := none, clients := none, createTime := env.now, documentId := i,
         forks := [], logOffset := none, minimumSequenceNumber := none, parent := none,
         sequenceNumber := StartingSequenceNumber, tenantId := t }]) t i =
      some { branchMap := none, clients := none, createTime := env.now, documentId := i,
             forks := [], logOffset := none, minimumSequenceNumber := none, parent := none,
             sequenceNumber := StartingSequenceNumber, tenantId := t } := by
    rw [findOne_append, habs]
    simp [findOne]
  rw [hfound]
  simp [List.countP_append, hzero]

/-- C3 witness: the amended behavior on the empty store. -/
theorem claim_C3_amended_witness :
    (getOrCreateDocument env1 "t1" "doc1" emptyState).1.1 = false ∧
    (getOrCreateDocument env1 "t1" "doc1" emptyState).1.2.sequenceNumber = StartingSequenceNumber ∧
    (getOrCreateDocument env1 "t1" "doc1" emptyState).1.2.minimumSequenceNumber = none ∧
    (getOrCreateDocument env1 "t1" "doc1" emptyState).1.2.forks = [] ∧
    (getOrCreateDocument env1 "t1" "doc1" emptyState).1.2.parent = none ∧
    (getOrCreateDocument env1 "t1" "doc1"
      (getOrCreateDocument env1 "t1" "doc1" emptyState).2).1.1 = true ∧
    (getOrCreateDocument env1 "t1" "doc1"
      (getOrCreateDocument env1 "t1" "doc1" emptyState).2).1.2 =
      (getOrCreateDocument env1 "t1" "doc1" emptyState).1.2 ∧
    (getOrCreateDocument env1 "t1" "doc1"
      (getOrCreateDocument env1 "t1" "doc1" emptyState).2).2 =
      (getOrCreateDocument env1 "t1" "doc1" emptyState).2 ∧
    (getOrCreateDocument env1 "t1" "doc1" emptyState).2.mongo.countP
      (fun d => d.documentId = "doc1" && d.tenantId = "t1") = 1 :=
  claim_C3_amended_holds env1 env1 emptyState "t1" "doc1" (by decide)

/-- C4 counterexample: with no record for ("t1","doc1"), `getForks` raises
the null-property-access error (`document.forks` on `null`) instead of
returning an empty sequence, contradicting "returns an empty sequence rather
than raising an error". -/
theorem claim_C4_counterexample :
    getForks "t1" "doc1" emptyState = Except.error Err.nullDeref ∧
    getForks "t1" "doc1" emptyState ≠ Except.ok ([] : List IForkRef) := by
  refine ⟨by rfl, ?_⟩
  intro h
  rw [show getForks "t1" "doc1" emptyState = Except.error Err.nullDeref from rfl] at h
  exact Except.noConfusion h

/-- C4 amended: when no DocumentRecord exists for the key, `getForks` fails
with the null-dereference error (it does not return an empty sequence); when
a record exists it returns that record's current forks list. -/
theorem claim_C4_amended_holds (st : SystemState) (t i : String) :
    ((∀ d ∈ st.mongo, ¬(d.documentId = i ∧ d.tenantId = t)) →
      getForks t i st = Except.error Err.nullDeref) ∧
    (∀ d, findOne st.mongo t i = some d → getForks t i st = Except.ok d.forks) := by
  constructor
  · intro habs
    have hnone : findOne st.mongo t i = none := by
      rw [findOne, List.find?_eq_none]
      intro d hd
      simpa using habs d hd
    unfold getForks
    rw [hnone]
  · intro d hd
    unfold getForks
    rw [hd]

/-- C4 witness: the empty store errors; a store holding the parent record
returns its (empty) forks list. -/
theorem claim_C4_amended_witness :
    getForks "t1" "doc1" emptyState = Except.error Err.nullDeref ∧
    getForks "t1" "doc1" stHead = Except.ok parentDoc.forks :=
  ⟨(claim_C4_amended_holds emptyState "t1" "doc1").1 (by decide),
   (claim_C4_amended_holds stHead "t1" "doc1").2 parentDoc (by decide)⟩

/-- A successful `createForkFinish` returns the generated name and appends
exactly one integration message, keyed by the parent id, with the fixed
envelope fields and the sequencing state it was handed. -/
theorem createForkFinish_ok (env : Env) (t id name : String) (sn msn : Int)
    (st : SystemState) (n : String) (st' : SystemState)
    (h : createForkFinish env t id name sn msn st = (Except.ok n, st')) :
    n = name ∧
    ∃ msg, st'.sent = st.sent ++ [(id, msg)] ∧
      msg.type = RawOperationType ∧ msg.documentId = id ∧ msg.clientId = none ∧
      msg.user = none ∧ msg.operation.type = apiFork ∧
      msg.operation.clientSequenceNumber = -1 ∧
      msg.operation.referenceSequenceNumber = -1 ∧ msg.operation.traces = [] ∧
      msg.operation.contents.documentId = name ∧ msg.operation.contents.tenantId = t ∧
      msg.operation.contents.sequenceNumber = sn ∧
      msg.operation.contents.minSequenceNumber = msn := by
  simp only [createForkFinish] at h
  rcases hins : insertOne st.mongo
      { branchMap := none, clients := none, createTime := env.now,
        documentId := name, forks := [], logOffset := none,
        minimumSequenceNumber := none,
        parent := some { documentId := id, minimumSequenceNumber := msn,
                         sequenceNumber := sn, tenantId := t },
        sequenceNumber := sn, tenantId := t } with _ | docs1
  · rw [hins] at h
    simp at h
  · rw [hins] at h
    simp only [Option.getD_some, Prod.mk.injEq, Except.ok.injEq] at h
    obtain ⟨hn, hst⟩ := h
    subst hn
    subst hst
    refine ⟨rfl, ⟨integrateMessage t id sn msn name env,
      ?_, rfl, rfl, rfl, rfl, rfl, rfl, rfl, rfl, rfl, rfl, rfl, rfl⟩⟩
    simp [sendIntegrateStream]

/-- C5: every successful `createFork` sends exactly one integration envelope
(one message appended to the producer log), keyed for routing by the parent's
document id, with type "RawOperation", documentId the parent's id, null
clientId and user, operation.type "Fork", clientSequenceNumber =
referenceSequenceNumber = -1, empty traces, contents.documentId the generated
fork id, and contents sequencing fields equal to the sequencing state derived
from the parent's head. -/
theorem claim_C5 (env : Env) (st : SystemState) (tenantId id : String)
    (n : String) (st' : SystemState)
    (hrun : createFork env tenantId id st = (Except.ok n, st')) :
    ∃ msg, st'.sent = st.sent ++ [(id, msg)] ∧
      msg.type = RawOperationType ∧ msg.documentId = id ∧ msg.clientId = none ∧
      msg.user = none ∧ msg.operation.type = apiFork ∧
      msg.operation.clientSequenceNumber = -1 ∧
      msg.operation.referenceSequenceNumber = -1 ∧ msg.operation.traces = [] ∧
      msg.operation.contents.documentId = n ∧ msg.operation.contents.tenantId = tenantId ∧
      derivedSeqState st.git id =
        some (msg.operation.contents.sequenceNumber,
              msg.operation.contents.minSequenceNumber) := by
  unfold createFork at hrun
  rcases href : refLookup st.git id with _ | sha
  · simp only [gitGetRef, href] at hrun
    obtain ⟨hn, msg, hsent, h1, h2, h3, h4, h5, h6, h7, h8, h9, h10, h11, h12⟩ :=
      createForkFinish_ok _ _ _ _ _ _ _ _ _ hrun
    subst hn
    refine ⟨msg, ?_, h1, h2, h3, h4, h5, h6, h7, h8, h9, h10, ?_⟩
    · simpa using hsent
    · unfold derivedSeqState
      rw [href, h11, h12]
  · simp only [gitGetRef, gitGetContent, href] at hrun
    rcases hblob : blobLookup st.git sha ".attributes" with _ | oa
    · rw [hblob] at hrun
      simp only [gitUpsertRef] at hrun
      simp at hrun
    · rcases oa with _ | a
      · rw [hblob] at hrun
        simp only [gitUpsertRef] at hrun
        simp at hrun
      · rw [hblob] at hrun
        obtain ⟨hn, msg, hsent, h1, h2, h3, h4, h5, h6, h7, h8, h9, h10, h11, h12⟩ :=
          createForkFinish_ok _ _ _ _ _ _ _ _ _ hrun
        subst hn
        refine ⟨msg, ?_, h1, h2, h3, h4, h5, h6, h7, h8, h9, h10, ?_⟩
        · simpa [gitUpsertRef] using hsent
        · unfold derivedSeqState
          simp [href, hblob, h11, h12]

/-- C5 witness: the worked scenario sends one envelope keyed by "doc1" with
sequencing (42, 10) and contents.documentId "fork1". -/
theorem claim_C5_witness :
    ∃ msg, (createFork env1 "t1" "doc1" stHead).2.sent = stHead.sent ++ [("doc1", msg)] ∧
      msg.type = RawOperationType ∧ msg.documentId = "doc1" ∧ msg.clientId = none ∧
      msg.user = none ∧ msg.operation.type = apiFork ∧
      msg.operation.clientSequenceNumber = -1 ∧
      msg.operation.referenceSequenceNumber = -1 ∧ msg.operation.traces = [] ∧
      msg.operation.contents.documentId = "fork1" ∧
      msg.operation.contents.tenantId = "t1" ∧
      derivedSeqState stHead.git "doc1" =
        some (msg.operation.contents.sequenceNumber,
              msg.operation.contents.minSequenceNumber) :=
  claim_C5 env1 stHead "t1" "doc1" "fork1" (createFork env1 "t1" "doc1" stHead).2 (by rfl)

/-- A successful `createForkFinish` leaves git state and call log untouched,
implies the generated name's key was fresh, inserts the fork record (findable
at the generated key, with the handed sequencing state in its `sequenceNumber`
and `parent` snapshot), and appends the fork entry to the parent record's
`forks` when the parent record exists. -/
theorem createForkFinish_ok_effects (env : Env) (t id name : String) (sn msn : Int)
    (st : SystemState) (n : String) (st' : SystemState)
    (h : createForkFinish env t id name sn msn st = (Except.ok n, st')) :
    n = name ∧
    st'.git = st.git ∧
    st'.gitLog = st.gitLog ∧
    findOne st.mongo t name = none ∧
    (∃ d, findOne st'.mongo t n = some d ∧ d.documentId = n ∧ d.tenantId = t ∧
      d.sequenceNumber = sn ∧ d.minimumSequenceNumber = none ∧
      d.parent = some { documentId := id, minimumSequenceNumber := msn,
                        sequenceNumber := sn, tenantId := t }) ∧
    (∀ p, findOne st.mongo t id = some p →
      findOne st'.mongo t id =
        some { p with forks := p.forks ++ [{ documentId := name, tenantId := t }] }) := by
  simp only [createForkFinish] at h
  set forkDoc : IDocument :=
    { branchMap := none, clients := none, createTime := env.now,
      documentId := name, forks := [], logOffset := none,
      minimumSequenceNumber := none,
      parent := some { documentId := id, minimumSequenceNumber := msn,
                       sequenceNumber := sn, tenantId := t },
      sequenceNumber := sn, tenantId := t } with hforkDoc
  rcases hins : insertOne st.mongo forkDoc with _ | docs1
  all_goals rw [hforkDoc] at hins
  · rw [hins] at h
    simp at h
  · rw [hins] at h
    simp only [Option.getD_some, Prod.mk.injEq, Except.ok.injEq] at h
    obtain ⟨hn, hst⟩ := h
    subst hn
    subst hst
    have hfresh : findOne st.mongo t name = none := by
      unfold insertOne at hins
      split at hins
      · exact absurd hins (by simp)
      · rename_i hf
        rcases hfo : findOne st.mongo t name with _ | d0
        · rfl
        · exact absurd (by simp [hfo]) hf
    have hdocs : docs1 = st.mongo ++ [forkDoc] := by
      unfold insertOne at hins
      split at hins
      · exact absurd hins (by simp)
      · simpa using hins.symm
    subst hdocs
    refine ⟨rfl, rfl, rfl, hfresh, ?_, ?_⟩
    · refine ⟨if forkDoc.documentId = id && forkDoc.tenantId = t
          then { forkDoc with forks := forkDoc.forks ++ [{ documentId := name, tenantId := t }] }
          else forkDoc, ?_, ?_⟩
      · rw [sendIntegrateStream]
        simp only
        rw [findOne_updateAppendFork, findOne_append, hfresh]
        simp [findOne, hforkDoc]
      · by_cases hc : (forkDoc.documentId = id && forkDoc.tenantId = t) = true
        · rw [if_pos hc, hforkDoc]
          exact ⟨rfl, rfl, rfl, rfl, rfl⟩
        · rw [if_neg hc, hforkDoc]
          exact ⟨rfl, rfl, rfl, rfl, rfl⟩
    · intro p hp
      obtain ⟨hpd, hpt⟩ := findOne_eq_some_key hp
      rw [sendIntegrateStream]
      simp only
      rw [findOne_updateAppendFork, findOne_append, hp]
      simp [hpd, hpt]

/-- C6: for a parent with no head ref, a successful `createFork` produces a
fork whose sequencing state is the `StartingSequenceNumber` default 0 in every
place it is materialized — the record's `sequenceNumber`, its `parent`
snapshot (both fields), and the announcement's sequencing fields — and no ref
is created (the version store is untouched). -/
theorem claim_C6 (env : Env) (st : SystemState) (tenantId id : String)
    (n : String) (st' : SystemState)
    (href : refLookup st.git id = none)
    (hrun : createFork env tenantId id st = (Except.ok n, st')) :
    st'.git = st.git ∧
    (∃ d, findOne st'.mongo tenantId n = some d ∧
      d.sequenceNumber = StartingSequenceNumber ∧
      d.parent = some { documentId := id, minimumSequenceNumber := StartingSequenceNumber,
                        sequenceNumber := StartingSequenceNumber, tenantId := tenantId }) ∧
    (∃ msg, st'.sent = st.sent ++ [(id, msg)] ∧
      msg.operation.contents.sequenceNumber = StartingSequenceNumber ∧
      msg.operation.contents.minSequenceNumber = StartingSequenceNumber) := by
  unfold createFork at hrun
  simp only [gitGetRef, href] at hrun
  obtain ⟨hn, hgit, hlog, hfresh, ⟨d, hd, hdid, hdt, hdsn, hdmsn, hdparent⟩, hpar⟩ :=
    createForkFinish_ok_effects _ _ _ _ _ _ _ _ _ hrun
  obtain ⟨hn2, msg, hsent, h1, h2, h3, h4, h5, h6, h7, h8, h9, h10, h11, h12⟩ :=
    createForkFinish_ok _ _ _ _ _ _ _ _ _ hrun
  exact ⟨by rw [hgit], ⟨d, hd, hdsn, hdparent⟩, ⟨msg, by simpa using hsent, h11, h12⟩⟩

/-- C6 witness: forking "doc1" in the empty state (no head ref) yields a
record and an announcement whose sequencing state is (0, 0), and leaves the
version store untouched. -/
theorem claim_C6_witness :
    (createFork env1 "t1" "doc1" emptyState).2.git = emptyState.git ∧
    (∃ d, findOne (createFork env1 "t1" "doc1" emptyState).2.mongo "t1" "fork1" = some d ∧
      d.sequenceNumber = StartingSequenceNumber ∧
      d.parent = some { documentId := "doc1", minimumSequenceNumber := StartingSequenceNumber,
                        sequenceNumber := StartingSequenceNumber, tenantId := "t1" }) ∧
    (∃ msg, (createFork env1 "t1" "doc1" emptyState).2.sent =
        emptyState.sent ++ [("doc1", msg)] ∧
      msg.operation.contents.sequenceNumber = StartingSequenceNumber ∧
      msg.operation.contents.minSequenceNumber = StartingSequenceNumber) :=
  claim_C6 env1 emptyState "t1" "doc1" "fork1"
    (createFork env1 "t1" "doc1" emptyState).2 (by decide) (by rfl)

/-- C7: `createFork` returns a fork id only when every step has completed in
the resulting state: the sequencing-state derivation succeeded, the fork
record is present, the parent's record (when it exists) has the fork entry
appended, exactly one announcement has been sent, and — when the parent had a
head — the fork's ref points at that head. A failing run returns an error
value carrying no fork id (the result is `Except.error`, never a partial
name). -/
theorem claim_C7 (env : Env) (st : SystemState) (tenantId id : String)
    (n : String) (st' : SystemState)
    (hrun : createFork env tenantId id st = (Except.ok n, st')) :
    (derivedSeqState st.git id).isSome ∧
    (findOne st'.mongo tenantId n).isSome ∧
    (∀ p, findOne st.mongo tenantId id = some p →
      findOne st'.mongo tenantId id =
        some { p with forks := p.forks ++ [{ documentId := n, tenantId := tenantId }] }) ∧
    (∃ msg, st'.sent = st.sent ++ [(id, msg)]) ∧
    (∀ sha, refLookup st.git id = some sha → refLookup st'.git n = some sha) := by
  unfold createFork at hrun
  rcases href : refLookup st.git id with _ | sha
  · simp only [gitGetRef, href] at hrun
    obtain ⟨hn, hgit, hlog, hfresh, ⟨d, hd, hrest⟩, hpar⟩ :=
      createForkFinish_ok_effects _ _ _ _ _ _ _ _ _ hrun
    obtain ⟨hn2, msg, hsent, hrest2⟩ := createForkFinish_ok _ _ _ _ _ _ _ _ _ hrun
    subst hn
    refine ⟨by unfold derivedSeqState; rw [href]; rfl, by rw [hd]; rfl,
      ?_, ⟨msg, by simpa using hsent⟩, ?_⟩
    · intro p hp
      exact hpar p hp
    · intro sha h
      exact Option.noConfusion h
  · simp only [gitGetRef, gitGetContent, href] at hrun
    rcases hblob : blobLookup st.git sha ".attributes" with _ | oa
    · rw [hblob] at hrun
      simp only [gitUpsertRef] at hrun
      simp at hrun
    · rcases oa with _ | a
      · rw [hblob] at hrun
        simp only [gitUpsertRef] at hrun
        simp at hrun
      · rw [hblob] at hrun
        obtain ⟨hn, hgit, hlog, hfresh, ⟨d, hd, hrest⟩, hpar⟩ :=
          createForkFinish_ok_effects _ _ _ _ _ _ _ _ _ hrun
        obtain ⟨hn2, msg, hsent, hrest2⟩ := createForkFinish_ok _ _ _ _ _ _ _ _ _ hrun
        subst hn
        refine ⟨by unfold derivedSeqState; rw [href]; simp [hblob], by rw [hd]; rfl,
          ?_, ⟨msg, by simpa [gitUpsertRef] using hsent⟩, ?_⟩
        · intro p hp
          exact hpar p (by simpa [gitUpsertRef] using hp)
        · intro sha2 h
          obtain rfl : sha = sha2 := by simpa using h
          rw [hgit]
          simp [gitUpsertRef, refLookup]

/-- C7 witness: the worked scenario — success implies all effects present. -/
theorem claim_C7_witness :
    (derivedSeqState stHead.git "doc1").isSome ∧
    (findOne (createFork env1 "t1" "doc1" stHead).2.mongo "t1" "fork1").isSome ∧
    (∀ p, findOne stHead.mongo "t1" "doc1" = some p →
      findOne (createFork env1 "t1" "doc1" stHead).2.mongo "t1" "doc1" =
        some { p with forks := p.forks ++ [{ documentId := "fork1", tenantId := "t1" }] }) ∧
    (∃ msg, (createFork env1 "t1" "doc1" stHead).2.sent = stHead.sent ++ [("doc1", msg)]) ∧
    (∀ sha, refLookup stHead.git "doc1" = some sha →
      refLookup (createFork env1 "t1" "doc1" stHead).2.git "fork1" = some sha) :=
  claim_C7 env1 stHead "t1" "doc1" "fork1" (createFork env1 "t1" "doc1" stHead).2 (by rfl)

/-- Any successful `createFork` returns the generated name and appends the
fork entry to the parent's record when that record exists (helper shared by
several claims). -/
theorem createFork_ok_name_parent (env : Env) (st : SystemState) (tenantId id : String)
    (n : String) (st' : SystemState)
    (hrun : createFork env tenantId id st = (Except.ok n, st')) :
    n = env.chosenName ∧
    (∀ p, findOne st.mongo tenantId id = some p →
      findOne st'.mongo tenantId id =
        some { p with forks := p.forks ++
          [{ documentId := env.chosenName, tenantId := tenantId }] }) := by
  unfold createFork at hrun
  rcases href : refLookup st.git id with _ | sha
  · simp only [gitGetRef, href] at hrun
    obtain ⟨hn, hgit, hlog, hfresh, hrec, hpar⟩ :=
      createForkFinish_ok_effects _ _ _ _ _ _ _ _ _ hrun
    exact ⟨hn, fun p hp => hpar p hp⟩
  · simp only [gitGetRef, gitGetContent, href] at hrun
    rcases hblob : blobLookup st.git sha ".attributes" with _ | oa
    · rw [hblob] at hrun
      simp only [gitUpsertRef] at hrun
      simp at hrun
    · rcases oa with _ | a
      · rw [hblob] at hrun
        simp only [gitUpsertRef] at hrun
        simp at hrun
      · rw [hblob] at hrun
        obtain ⟨hn, hgit, hlog, hfresh, hrec, hpar⟩ :=
          createForkFinish_ok_effects _ _ _ _ _ _ _ _ _ hrun
        refine ⟨hn, fun p hp => ?_⟩
        exact hpar p (by simpa [gitUpsertRef] using hp)

/-- C8 counterexample: when the parent has no metadata record at all,
`createFork` still succeeds (the parent-side `update` matches nothing and is
a no-op), but `getForks` on the parent then fails with the null-dereference
error instead of returning a sequence containing the fork id once. -/
theorem claim_C8_counterexample :
    (createFork env1 "t1" "doc1" emptyState).1 = Except.ok "fork1" ∧
    getForks "t1" "doc1" (createFork env1 "t1" "doc1" emptyState).2 =
      Except.error Err.nullDeref := by
  exact ⟨by rfl, by rfl⟩

/-- C8 amended: when the parent's metadata record exists and its forks list
has no entry named after the generated fork id yet, a successful
`createFork(tenant, parent) = forkId` makes `getForks(tenant, parent)` return
a list containing exactly one entry whose documentId is forkId. (Without an
existing parent record, `createFork` still succeeds but `getForks` errors.) -/
theorem claim_C8_amended_holds (env : Env) (st : SystemState) (tenantId id : String)
    (n : String) (st' : SystemState) (p : IDocument)
    (hp : findOne st.mongo tenantId id = some p)
    (hcount : p.forks.countP (fun e => e.documentId = env.chosenName) = 0)
    (hrun : createFork env tenantId id st = (Except.ok n, st')) :
    ∃ l, getForks tenantId id st' = Except.ok l ∧
      l.countP (fun e => e.documentId = n) = 1 := by
  obtain ⟨hn, hpar⟩ := createFork_ok_name_parent env st tenantId id n st' hrun
  subst hn
  refine ⟨p.forks ++ [{ documentId := env.chosenName, tenantId := tenantId }], ?_, ?_⟩
  · unfold getForks
    rw [hpar p hp]
  · rw [List.countP_append, hcount]
    simp

/-- C8 witness: the worked scenario — after forking "doc1" (whose record
exists with empty forks), `getForks` lists "fork1" exactly once. -/
theorem claim_C8_amended_witness :
    ∃ l, getForks "t1" "doc1" (createFork env1 "t1" "doc1" stHead).2 = Except.ok l ∧
      l.countP (fun e => e.documentId = "fork1") = 1 :=
  claim_C8_amended_holds env1 stHead "t1" "doc1" "fork1"
    (createFork env1 "t1" "doc1" stHead).2 parentDoc (by decide) (by decide) (by rfl)

/-- Lemma: `createForkFinish` never touches the VersionStore call log, whatever the
outcome. -/
theorem createForkFinish_gitLog (env : Env) (t id name : String) (sn msn : Int)
    (st : SystemState) :
    ((createForkFinish env t id name sn msn st).2).gitLog = st.gitLog := by
  simp only [createForkFinish]
  split
  · rfl
  · rfl

/-- C9: in one `createFork` request (run on a fresh call log), the head ref
is resolved exactly once — the log holds exactly one `getRef`, on the parent
id with the state's resolution — and every attributes read and every ref
upsert in the run uses the commit sha of that single resolution. -/
theorem claim_C9 (env : Env) (st : SystemState) (tenantId id : String)
    (hlog : st.gitLog = []) :
    (createFork env tenantId id st).2.gitLog.countP isGetRefOp = 1 ∧
    (∀ i r, GitOp.getRef i r ∈ (createFork env tenantId id st).2.gitLog →
      i = id ∧ r = refLookup st.git id) ∧
    (∀ sha path, GitOp.getContent sha path ∈ (createFork env tenantId id st).2.gitLog →
      refLookup st.git id = some sha) ∧
    (∀ m sha, GitOp.upsertRef m sha ∈ (createFork env tenantId id st).2.gitLog →
      refLookup st.git id = some sha) := by
  rcases href : refLookup st.git id with _ | sha
  · have hL : (createFork env tenantId id st).2.gitLog = [GitOp.getRef id none] := by
      unfold createFork
      simp only [gitGetRef, href]
      rw [createForkFinish_gitLog]
      simp [hlog]
    rw [hL]
    refine ⟨by simp [isGetRefOp], ?_, ?_, ?_⟩
    · intro i r h
      simp at h
      exact ⟨h.1, h.2⟩
    · intro sha path h
      simp at h
    · intro m sha h
      simp at h
  · have hL : (createFork env tenantId id st).2.gitLog =
        [GitOp.getRef id (some sha), GitOp.getContent sha ".attributes",
         GitOp.upsertRef env.chosenName sha] := by
      unfold createFork
      simp only [gitGetRef, gitGetContent, href]
      rcases hblob : blobLookup st.git sha ".attributes" with _ | oa
      · simp [gitUpsertRef, hlog]
      · rcases oa with _ | a
        · simp [gitUpsertRef, hlog]
        · simp [gitUpsertRef, hlog, createForkFinish_gitLog]
    rw [hL]
    refine ⟨by simp [isGetRefOp, List.countP_cons], ?_, ?_, ?_⟩
    · intro i r h
      simp at h
      exact ⟨h.1, h.2⟩
    · intro sha2 path h
      simp at h
      rw [h.1]
    · intro m sha2 h
      simp at h
      rw [h.2]

/-- C9 witness: the worked scenario's call log is exactly one resolution of
"doc1" followed by a content read and a ref upsert at the resolved sha. -/
theorem claim_C9_witness :
    (createFork env1 "t1" "doc1" stHead).2.gitLog.countP isGetRefOp = 1 ∧
    (∀ i r, GitOp.getRef i r ∈ (createFork env1 "t1" "doc1" stHead).2.gitLog →
      i = "doc1" ∧ r = refLookup stHead.git "doc1") ∧
    (∀ sha path, GitOp.getContent sha path ∈ (createFork env1 "t1" "doc1" stHead).2.gitLog →
      refLookup stHead.git "doc1" = some sha) ∧
    (∀ m sha, GitOp.upsertRef m sha ∈ (createFork env1 "t1" "doc1" stHead).2.gitLog →
      refLookup stHead.git "doc1" = some sha) :=
  claim_C9 env1 stHead "t1" "doc1" (by rfl)

/-- C10: a successful `createFork` (run on a fresh call log) uses its single
generated name consistently everywhere the fork is identified: every ref
upsert of the run names it, the inserted fork record is keyed by and carries
it as documentId, the entry appended to the parent's forks names it, the
announcement's contents.documentId equals it, and it is the returned value. -/
theorem claim_C10 (env : Env) (st : SystemState) (tenantId id : String)
    (n : String) (st' : SystemState)
    (hlog : st.gitLog = [])
    (hrun : createFork env tenantId id st = (Except.ok n, st')) :
    n = env.chosenName ∧
    (∀ m sha, GitOp.upsertRef m sha ∈ st'.gitLog → m = n) ∧
    (∃ d, findOne st'.mongo tenantId n = some d ∧ d.documentId = n) ∧
    (∀ p, findOne st.mongo tenantId id = some p →
      findOne st'.mongo tenantId id =
        some { p with forks := p.forks ++ [{ documentId := n, tenantId := tenantId }] }) ∧
    (∃ msg, st'.sent = st.sent ++ [(id, msg)] ∧
      msg.operation.contents.documentId = n) := by
  obtain ⟨hn, hparApp⟩ := createFork_ok_name_parent env st tenantId id n st' hrun
  subst hn
  unfold createFork at hrun
  rcases href : refLookup st.git id with _ | sha
  · simp only [gitGetRef, href] at hrun
    obtain ⟨hn1, hgit, hlog1, hfresh, ⟨d, hd, hdid, hrest⟩, hpar1⟩ :=
      createForkFinish_ok_effects _ _ _ _ _ _ _ _ _ hrun
    obtain ⟨hn2, msg, hsent, h1, h2, h3, h4, h5, h6, h7, h8, h9, hrest2⟩ :=
      createForkFinish_ok _ _ _ _ _ _ _ _ _ hrun
    refine ⟨rfl, ?_, ⟨d, hd, hdid⟩, hparApp, ⟨msg, by simpa using hsent, h9⟩⟩
    intro m sha h
    rw [hlog1] at h
    simp [hlog] at h
  · simp only [gitGetRef, gitGetContent, href] at hrun
    rcases hblob : blobLookup st.git sha ".attributes" with _ | oa
    · rw [hblob] at hrun
      simp only [gitUpsertRef] at hrun
      simp at hrun
    · rcases oa with _ | a
      · rw [hblob] at hrun
        simp only [gitUpsertRef] at hrun
        simp at hrun
      · rw [hblob] at hrun
        obtain ⟨hn1, hgit, hlog1, hfresh, ⟨d, hd, hdid, hrest⟩, hpar1⟩ :=
          createForkFinish_ok_effects _ _ _ _ _ _ _ _ _ hrun
        obtain ⟨hn2, msg, hsent, h1, h2, h3, h4, h5, h6, h7, h8, h9, hrest2⟩ :=
          createForkFinish_ok _ _ _ _ _ _ _ _ _ hrun
        refine ⟨rfl, ?_, ⟨d, hd, hdid⟩, hparApp,
          ⟨msg, by simpa [gitUpsertRef] using hsent, h9⟩⟩
        intro m sha2 h
        rw [hlog1] at h
        simp [gitUpsertRef, hlog] at h
        exact h.1

/-- C10 witness: the worked scenario — the single name "fork1" identifies the
fork in the ref upsert, the inserted record, the parent's fork entry, the
announcement, and the return value. -/
theorem claim_C10_witness :
    ("fork1" : String) = env1.chosenName ∧
    (∀ m sha, GitOp.upsertRef m sha ∈ (createFork env1 "t1" "doc1" stHead).2.gitLog →
      m = "fork1") ∧
    (∃ d, findOne (createFork env1 "t1" "doc1" stHead).2.mongo "t1" "fork1" = some d ∧
      d.documentId = "fork1") ∧
    (∀ p, findOne stHead.mongo "t1" "doc1" = some p →
      findOne (createFork env1 "t1" "doc1" stHead).2.mongo "t1" "doc1" =
        some { p with forks := p.forks ++ [{ documentId := "fork1", tenantId := "t1" }] }) ∧
    (∃ msg, (createFork env1 "t1" "doc1" stHead).2.sent = stHead.sent ++ [("doc1", msg)] ∧
      msg.operation.contents.documentId = "fork1") :=
  claim_C10 env1 stHead "t1" "doc1" "fork1"
    (createFork env1 "t1" "doc1" stHead).2 (by rfl) (by rfl)
